import Mathlib

/-!
Verification of the MintClip hybrid retrieval engine against its specification.

The definitions below are shallow embeddings of the Python source:
  * `bm25.chunk_transcript` / `pinecone.chunk_transcript`
      — `backend/app/services/bm25_retrieval.py` lines 23–57 and
        `backend/app/services/pinecone_embeddings.py` lines 40–75.
        The Python `while start < length` loop is embedded fuel-indexed
        (`chunkLoop`); `none` marks fuel exhaustion, and termination is the
        statement that some fuel yields `some`.
  * `hybrid.is_empty_or_not_discussed`
      — `hybrid_retrieval.py` lines 15–49, over `List Char` with Python
        `str.strip` / `str.lower` / substring `in` modelled character-wise.
  * `topk.argsort`, `bm25.top_indices`, `pinecone.top_indices`
      — the `np.argsort(scores)[-top_k:][::-1]` selection of
        `bm25_retrieval.py` lines 186–197 / `pinecone_embeddings.py`
        lines 190–203.  `np.argsort` is modelled as a *stable* ascending
        argsort (insertion sort over the index range); numpy's default
        introsort does not even guarantee stability, so this is the most
        favourable deterministic reading of the source.  Scores are
        abstracted to an arbitrary linear order standing in for the float
        score values (only comparisons of given scores matter here).
  * `hybrid.retrieve_with_fallback` / `hybrid.retrieve_with_fallback_and_response`
      — `hybrid_retrieval.py` lines 52–130 and 133–230.  External calls
        (the BM25 retriever, the embedding service, the generative model)
        are oracles supplied in an environment record; a raised Python
        exception is `Except.error`, which the source catches with broad
        `try/except` blocks.  Python truthiness of an `Optional[str]` is
        `some` of a non-empty string.
  * `cache.SimpleCache` / `cache.RedisCache`
      — `cache.py` lines 24–72 and 75–140.  The in-memory dict is an
        association list with unique keys; `datetime.now()` is an explicit
        natural-number timestamp argument.  Redis / JSON operations are
        oracles that may fail (`Except.error` = raised exception).
-/

namespace bm25

/-- One iteration of the `while start < length` loop of `chunk_transcript`
(`bm25_retrieval.py` lines 43–57), fuel-indexed.  Each round takes
`transcript[start:start+chunk_size]`, appends it only when its length
exceeds the literal 100, and continues from `start + chunk_size - overlap`.
`none` = fuel ran out before the loop guard failed. -/
def chunkLoop : Nat → List Char → Nat → Nat → Nat → Option (List (List Char))
  | 0, _, _, _, _ => none
  | fuel + 1, transcript, chunk_size, overlap, start =>
    if start < transcript.length then
      let chunk := (transcript.drop start).take chunk_size
      match chunkLoop fuel transcript chunk_size overlap (start + chunk_size - overlap) with
      | none => none
      | some rest => some (if chunk.length > 100 then chunk :: rest else rest)
    else
      some []

/-- `chunk_transcript(transcript, chunk_size=1000, overlap=100)` from
`bm25_retrieval.py`.  Fuel `length + 1` is proved sufficient whenever
`overlap < chunk_size` (`chunkLoop_adequate`); `none` means the Python
loop would not have terminated within that bound. -/
def chunk_transcript (transcript : List Char) (chunk_size : Nat := 1000)
    (overlap : Nat := 100) : Option (List (List Char)) :=
  chunkLoop (transcript.length + 1) transcript chunk_size overlap 0

/-- The Python loop terminates on `(transcript, chunk_size, overlap)`:
some amount of fuel makes `chunkLoop` finish. -/
def chunkTerminates (transcript : List Char) (chunk_size overlap : Nat) : Prop :=
  ∃ fuel, (chunkLoop fuel transcript chunk_size overlap 0).isSome

end bm25

namespace pinecone

/-- The loop of `chunk_transcript` in `pinecone_embeddings.py` lines 61–75
(character-identical to the BM25 module's chunker), fuel-indexed. -/
def chunkLoop : Nat → List Char → Nat → Nat → Nat → Option (List (List Char))
  | 0, _, _, _, _ => none
  | fuel + 1, transcript, chunk_size, overlap, start =>
    if start < transcript.length then
      let chunk := (transcript.drop start).take chunk_size
      match chunkLoop fuel transcript chunk_size overlap (start + chunk_size - overlap) with
      | none => none
      | some rest => some (if chunk.length > 100 then chunk :: rest else rest)
    else
      some []

/-- `chunk_transcript(transcript, chunk_size=1000, overlap=100)` from
`pinecone_embeddings.py`. -/
def chunk_transcript (transcript : List Char) (chunk_size : Nat := 1000)
    (overlap : Nat := 100) : Option (List (List Char)) :=
  chunkLoop (transcript.length + 1) transcript chunk_size overlap 0

end pinecone

namespace bm25

/-- Closed form of the chunking loop in the region where it terminates:
guarded by `overlap < chunk_size` so that the recursion is well-founded.
`chunkLoop_adequate` shows the fuel-indexed source loop computes exactly
this whenever `overlap < chunk_size`. -/
def chunksFrom (transcript : List Char) (chunk_size overlap start : Nat) :
    List (List Char) :=
  if _hwf : start < transcript.length ∧ overlap < chunk_size then
    let chunk := (transcript.drop start).take chunk_size
    let rest := chunksFrom transcript chunk_size overlap (start + chunk_size - overlap)
    if chunk.length > 100 then chunk :: rest else rest
  else
    []
termination_by transcript.length - start
decreasing_by omega

theorem chunkLoop_adequate (chunk_size overlap : Nat) (hov : overlap < chunk_size) :
    ∀ (fuel : Nat) (transcript : List Char) (start : Nat),
      transcript.length - start < fuel →
      chunkLoop fuel transcript chunk_size overlap start
        = some (chunksFrom transcript chunk_size overlap start) := by
  intro fuel
  induction fuel with
  | zero => intro t start h; exact absurd h (Nat.not_lt_zero _)
  | succ f ih =>
    intro t start h
    rw [chunkLoop, chunksFrom]
    by_cases hs : start < t.length
    · rw [if_pos hs, dif_pos ⟨hs, hov⟩]
      rw [ih t (start + chunk_size - overlap) (by omega)]
    · rw [if_neg hs, dif_neg (by tauto)]

theorem chunk_transcript_eq (transcript : List Char) (chunk_size overlap : Nat)
    (hov : overlap < chunk_size) :
    chunk_transcript transcript chunk_size overlap
      = some (chunksFrom transcript chunk_size overlap 0) := by
  exact chunkLoop_adequate chunk_size overlap hov _ transcript 0 (by omega)

theorem chunksFrom_nil (t : List Char) (cs ov start : Nat)
    (h : t.length ≤ start + 100) : chunksFrom t cs ov start = [] := by
  rw [chunksFrom]
  split
  next hg =>
    have hrec : chunksFrom t cs ov (start + cs - ov) = [] :=
      chunksFrom_nil t cs ov (start + cs - ov) (by omega)
    have hlen : ¬ ((t.drop start).take cs).length > 100 := by
      simp only [List.length_take, List.length_drop]
      omega
    simp only [hrec, if_neg hlen]
  next => rfl
termination_by t.length - start
decreasing_by omega

theorem chunksFrom_nil_of_small (t : List Char) (cs ov start : Nat)
    (h : cs ≤ 100) : chunksFrom t cs ov start = [] := by
  rw [chunksFrom]
  split
  next hg =>
    have hrec : chunksFrom t cs ov (start + cs - ov) = [] :=
      chunksFrom_nil_of_small t cs ov (start + cs - ov) h
    have hlen : ¬ ((t.drop start).take cs).length > 100 := by
      simp only [List.length_take, List.length_drop]
      omega
    simp only [hrec, if_neg hlen]
  next => rfl
termination_by t.length - start
decreasing_by omega

theorem chunksFrom_cons (t : List Char) (cs ov start : Nat)
    (hov : ov < cs) (hcs : 100 < cs) (hst : start + 100 < t.length) :
    chunksFrom t cs ov start
      = (t.drop start).take cs :: chunksFrom t cs ov (start + cs - ov) := by
  rw [chunksFrom]
  rw [dif_pos ⟨by omega, hov⟩]
  have hlen : ((t.drop start).take cs).length > 100 := by
    simp only [List.length_take, List.length_drop]
    omega
  simp only [if_pos hlen]

theorem chunksFrom_ne_nil (t : List Char) (cs ov start : Nat)
    (h : chunksFrom t cs ov start ≠ []) : 100 < cs ∧ start + 100 < t.length := by
  constructor
  · by_contra hc
    exact h (chunksFrom_nil_of_small t cs ov start (by omega))
  · by_contra hc
    exact h (chunksFrom_nil t cs ov start (by omega))

/-- Structure of the chunk list: element `i` of the result starting at
`start` is the window `transcript[start + i*(cs-ov) : start + i*(cs-ov) + cs]`,
and that window begins more than 100 characters before the end of the text. -/
theorem chunksFrom_getD (t : List Char) (cs ov : Nat) (hov : ov < cs) :
    ∀ (i start : Nat), i < (chunksFrom t cs ov start).length →
      (chunksFrom t cs ov start).getD i []
          = (t.drop (start + i * (cs - ov))).take cs
        ∧ start + i * (cs - ov) + 100 < t.length := by
  intro i
  induction i with
  | zero =>
    intro start hi
    have hne : chunksFrom t cs ov start ≠ [] := by
      intro hnil
      rw [hnil] at hi
      exact absurd hi (by simp)
    obtain ⟨hcs, hst⟩ := chunksFrom_ne_nil t cs ov start hne
    rw [chunksFrom_cons t cs ov start hov hcs hst]
    simp [hst]
  | succ i ih =>
    intro start hi
    have hne : chunksFrom t cs ov start ≠ [] := by
      intro hnil
      rw [hnil] at hi
      exact absurd hi (by simp)
    obtain ⟨hcs, hst⟩ := chunksFrom_ne_nil t cs ov start hne
    rw [chunksFrom_cons t cs ov start hov hcs hst] at hi ⊢
    simp only [List.length_cons, Nat.succ_lt_succ_iff] at hi
    obtain ⟨h1, h2⟩ := ih (start + cs - ov) hi
    have harith : start + cs - ov + i * (cs - ov) = start + (i + 1) * (cs - ov) := by
      have : start + cs - ov = start + (cs - ov) := by omega
      rw [this, Nat.succ_mul]
      ring
    refine ⟨?_, by omega⟩
    simpa [harith] using h1

end bm25

/-- C6: the two modules' chunkers compute step-for-step identical results:
the loop bodies are character-identical in the source. -/
theorem chunkLoop_modules_eq :
    ∀ (fuel : Nat) (t : List Char) (cs ov start : Nat),
      bm25.chunkLoop fuel t cs ov start = pinecone.chunkLoop fuel t cs ov start := by
  intro fuel
  induction fuel with
  | zero => intro t cs ov start; rfl
  | succ f ih =>
    intro t cs ov start
    rw [bm25.chunkLoop, pinecone.chunkLoop, ih]

/-- C5: with the default parameters (chunk_size 1000, overlap 100), every
pair of consecutive chunks returned by `chunk_transcript` overlaps in
exactly 100 characters — the later chunk's first 100 characters equal the
earlier chunk's last 100 characters — and every text shorter than 100
characters yields an empty chunk list. -/
theorem claim_C5 (t : List Char) (l : List (List Char))
    (h : bm25.chunk_transcript t 1000 100 = some l) :
    (∀ i, i + 1 < l.length →
        (l.getD (i + 1) []).take 100
          = (l.getD i []).drop ((l.getD i []).length - 100))
    ∧ (t.length < 100 → l = []) := by
  have hl : l = bm25.chunksFrom t 1000 100 0 := by
    rw [bm25.chunk_transcript_eq t 1000 100 (by norm_num)] at h
    exact (Option.some.injEq .. ▸ h).symm
  subst hl
  constructor
  · intro i hi
    have hov : (100 : Nat) < 1000 := by norm_num
    obtain ⟨g1, g2⟩ := bm25.chunksFrom_getD t 1000 100 hov i 0 (by omega)
    obtain ⟨g1', g2'⟩ := bm25.chunksFrom_getD t 1000 100 hov (i + 1) 0 hi
    norm_num at g1 g2 g1' g2'
    simp only [List.getD, List.get?_eq_getElem?]
    rw [g1, g1']
    have hlen : ((t.drop (i * 900)).take 1000).length = 1000 := by
      rw [List.length_take, List.length_drop]
      omega
    rw [hlen, List.take_take, List.drop_take, List.drop_drop]
    have harith : (i + 1) * 900 = i * 900 + (1000 - 100) := by ring_nf
    rw [harith]
    norm_num
  · intro hshort
    exact bm25.chunksFrom_nil t 1000 100 0 (by omega)

set_option maxRecDepth 100000 in
/-- Witness for C5 at a concrete 1101-character text, which chunks into a
1000-character chunk and a 201-character chunk. -/
theorem claim_C5_witness :
    bm25.chunk_transcript (List.replicate 1101 'a') 1000 100
        = some [List.replicate 1000 'a', List.replicate 201 'a']
    ∧ ((([List.replicate 1000 'a', List.replicate 201 'a'] :
            List (List Char)).getD 1 []).take 100
        = (([List.replicate 1000 'a', List.replicate 201 'a'] :
            List (List Char)).getD 0 []).drop
          ((([List.replicate 1000 'a', List.replicate 201 'a'] :
            List (List Char)).getD 0 []).length - 100)) := by
  have h : bm25.chunk_transcript (List.replicate 1101 'a') 1000 100
      = some [List.replicate 1000 'a', List.replicate 201 'a'] := by decide
  exact ⟨h, (claim_C5 (List.replicate 1101 'a') _ h).1 0 (by decide)⟩

/-- C6: the BM25 module's `chunk_transcript` and the Pinecone module's
`chunk_transcript` agree on every transcript and every parameter choice,
and either chunker called twice on the same arguments gives identical
results (the embedded functions are pure, reflecting that the Python
functions read no mutable state). -/
theorem claim_C6 (t : List Char) (cs ov : Nat) :
    bm25.chunk_transcript t cs ov = pinecone.chunk_transcript t cs ov
    ∧ bm25.chunk_transcript t cs ov = bm25.chunk_transcript t cs ov
    ∧ pinecone.chunk_transcript t cs ov = pinecone.chunk_transcript t cs ov := by
  refine ⟨?_, rfl, rfl⟩
  show bm25.chunkLoop _ t cs ov 0 = pinecone.chunkLoop _ t cs ov 0
  exact chunkLoop_modules_eq _ t cs ov 0

theorem chunkLoop_diverges (t : List Char) (cs ov : Nat) (hov : cs ≤ ov) :
    ∀ (fuel start : Nat), start < t.length →
      bm25.chunkLoop fuel t cs ov start = none := by
  intro fuel
  induction fuel with
  | zero => intro start hs; rfl
  | succ f ih =>
    intro start hs
    rw [bm25.chunkLoop, if_pos hs, ih (start + cs - ov) (by omega)]

/-- C10 counterexample: with chunk_size = overlap = 100 and a 200-character
text, `start` never advances past 0, so the source loop never terminates —
no amount of fuel completes `chunkLoop`. -/
theorem claim_C10_cex :
    ¬ bm25.chunkTerminates (List.replicate 200 'a') 100 100 := by
  rintro ⟨fuel, hf⟩
  rw [chunkLoop_diverges _ 100 100 (le_refl _) fuel 0 (by norm_num)] at hf
  exact absurd hf (by norm_num)

/-- C10 (amended): `chunk_transcript` terminates, returning a finite chunk
list, whenever overlap < chunk_size (as in every call in the repository) and
on the empty text for any parameters; with chunk_size ≤ overlap and a
non-empty text, `start` never advances and the source loop runs forever. -/
theorem claim_C10 (t : List Char) (cs ov : Nat) (h : ov < cs ∨ t.length = 0) :
    bm25.chunkTerminates t cs ov := by
  rcases h with h | h
  · exact ⟨t.length + 1, by
      rw [bm25.chunkLoop_adequate cs ov h _ t 0 (by omega)]; rfl⟩
  · exact ⟨1, by rw [bm25.chunkLoop, if_neg (by omega)]; rfl⟩

/-- Witness for C10 at a concrete text and parameter choice. -/
theorem claim_C10_witness : bm25.chunkTerminates (List.replicate 5 'a') 10 2 :=
  claim_C10 (List.replicate 5 'a') 10 2 (Or.inl (by norm_num))

namespace hybrid

/-- The whitespace characters stripped by Python `str.strip()`. -/
def pyIsSpace (c : Char) : Bool :=
  c = ' ' || c = '\t' || c = '\n' || c = '\r' || c = '\x0b' || c = '\x0c'

/-- Python `s.strip()`: remove leading and trailing whitespace. -/
def pyStrip (s : List Char) : List Char :=
  ((s.dropWhile pyIsSpace).reverse.dropWhile pyIsSpace).reverse

/-- Python `s.lower()` on the ASCII text the marker phrases consist of. -/
def pyLower (s : List Char) : List Char := s.map Char.toLower

/-- Python substring test `needle in hay`. -/
def pyContains (hay needle : List Char) : Bool :=
  (List.range (hay.length + 1)).any (fun i => needle.isPrefixOf (hay.drop i))

/-- The fixed marker-phrase list of `is_empty_or_not_discussed`
(`hybrid_retrieval.py` lines 31–39). -/
def not_discussed_phrases : List (List Char) :=
  ["not discussed in the video".toList,
   "topic is not discussed".toList,
   "does not mention".toList,
   "transcript does not contain".toList,
   "not mentioned in the video".toList,
   "no information about".toList,
   "video does not discuss".toList]

/-- `is_empty_or_not_discussed(response)` from `hybrid_retrieval.py`
lines 15–49: empty/whitespace-only, marker phrase in the lowercased text,
or stripped length under 50. -/
def is_empty_or_not_discussed (response : List Char) : Bool :=
  if response.isEmpty || (pyStrip response).isEmpty then true
  else if not_discussed_phrases.any (fun p => pyContains (pyLower response) p) then true
  else if (pyStrip response).length < 50 then true
  else false

theorem is_empty_iff_spec (response : List Char) :
    is_empty_or_not_discussed response = true
      ↔ (pyStrip response = []
          ∨ (∃ p ∈ not_discussed_phrases, pyContains (pyLower response) p = true)
          ∨ (pyStrip response).length < 50) := by
  unfold is_empty_or_not_discussed
  split
  next hc =>
    simp only [Bool.or_eq_true, List.isEmpty_iff] at hc
    simp only [true_iff]
    left
    rcases hc with hc | hc
    · rw [hc]; rfl
    · exact hc
  next hc =>
    simp only [Bool.or_eq_true, List.isEmpty_iff, not_or] at hc
    split
    next hp =>
      simp only [true_iff]
      right; left
      simpa only [List.any_eq_true] using hp
    next hp =>
      split
      next hl => simp only [true_iff]; right; right; exact hl
      next hl =>
        simp only [Bool.false_eq_true, false_iff, not_or]
        refine ⟨hc.2, ?_, hl⟩
        intro hcontra
        exact hp (by simpa only [List.any_eq_true] using hcontra)

end hybrid

/-- C4: `is_empty_or_not_discussed` returns true exactly when the answer is
empty or whitespace-only, or its lowercase form contains one of the fixed
"not found" marker phrases, or its stripped length is below 50 characters;
in particular it accepts the two reference examples. -/
theorem claim_C4 (response : List Char) :
    (hybrid.is_empty_or_not_discussed response = true
      ↔ (hybrid.pyStrip response = []
          ∨ (∃ p ∈ hybrid.not_discussed_phrases,
              hybrid.pyContains (hybrid.pyLower response) p = true)
          ∨ (hybrid.pyStrip response).length < 50))
    ∧ hybrid.is_empty_or_not_discussed
        "This topic is not discussed in the video.".toList = true
    ∧ hybrid.is_empty_or_not_discussed
        ("The speaker explains the launch process in detail across "
          ++ "three sections.").toList = false :=
  ⟨hybrid.is_empty_iff_spec response, by decide, by decide⟩

namespace topk

/-- Ascending comparison on indices by score, the key `np.argsort(scores)`
sorts by.  Out-of-range indices (never produced by `argsort`) read the
`default` score. -/
def rankLE {α : Type} [LinearOrder α] [Inhabited α] (scores : List α)
    (i j : Nat) : Prop :=
  scores.getD i default ≤ scores.getD j default

/-- The index comparison refined lexicographically by the index itself;
agrees with `rankLE` on pairs `i < j` and is antisymmetric. -/
def rankLex {α : Type} [LinearOrder α] [Inhabited α] (scores : List α)
    (i j : Nat) : Prop :=
  scores.getD i default < scores.getD j default
    ∨ (scores.getD i default = scores.getD j default ∧ i ≤ j)

instance {α : Type} [LinearOrder α] [Inhabited α] (scores : List α) :
    DecidableRel (rankLE scores) :=
  fun _ _ => inferInstanceAs (Decidable (_ ≤ _))

instance {α : Type} [LinearOrder α] [Inhabited α] (scores : List α) :
    DecidableRel (rankLex scores) :=
  fun _ _ => inferInstanceAs (Decidable (_ ∨ _))

/-- `np.argsort(scores)`, modelled as a stable ascending argsort: the index
range sorted by score with equal scores keeping their original order.
(numpy's default introsort does not even guarantee stability; this is the
most favourable deterministic reading of the source.) -/
def argsort {α : Type} [LinearOrder α] [Inhabited α] (scores : List α) :
    List Nat :=
  List.insertionSort (rankLE scores) (List.range scores.length)

/-- Python slice `l[-k:]`: the last `k` elements, except that `-0` is `0`,
so `k = 0` keeps the whole list. -/
def lastSlice {α : Type} (l : List α) (k : Nat) : List α :=
  if k = 0 then l else l.drop (l.length - k)

theorem orderedInsert_congr {β : Type} (r s : β → β → Prop)
    [DecidableRel r] [DecidableRel s] (a : β) (l : List β)
    (h : ∀ b ∈ l, r a b ↔ s a b) :
    List.orderedInsert r a l = List.orderedInsert s a l := by
  induction l with
  | nil => rfl
  | cons b t ih =>
    simp only [List.orderedInsert]
    by_cases hr : r a b
    · rw [if_pos hr, if_pos ((h b (by simp)).mp hr)]
    · rw [if_neg hr, if_neg (fun hc => hr ((h b (by simp)).mpr hc)),
        ih (fun x hx => h x (by simp [hx]))]

theorem insertionSort_congr {β : Type} (r s : β → β → Prop)
    [DecidableRel r] [DecidableRel s] (l : List β)
    (h : l.Pairwise (fun a b => r a b ↔ s a b)) :
    List.insertionSort r l = List.insertionSort s l := by
  induction l with
  | nil => rfl
  | cons a t ih =>
    simp only [List.insertionSort]
    rw [ih (List.pairwise_cons.mp h).2]
    refine orderedInsert_congr r s a _ (fun b hb => ?_)
    exact (List.pairwise_cons.mp h).1 b ((List.perm_insertionSort s t).subset hb)

theorem rankLex_total {α : Type} [LinearOrder α] [Inhabited α]
    (scores : List α) : ∀ i j, rankLex scores i j ∨ rankLex scores j i := by
  intro i j
  unfold rankLex
  rcases lt_trichotomy (scores.getD i default) (scores.getD j default) with h | h | h
  · exact Or.inl (Or.inl h)
  · rcases Nat.le_total i j with hij | hij
    · exact Or.inl (Or.inr ⟨h, hij⟩)
    · exact Or.inr (Or.inr ⟨h.symm, hij⟩)
  · exact Or.inr (Or.inl h)

theorem rankLex_trans {α : Type} [LinearOrder α] [Inhabited α]
    (scores : List α) : ∀ i j k,
      rankLex scores i j → rankLex scores j k → rankLex scores i k := by
  intro i j k hij hjk
  unfold rankLex at *
  rcases hij with h1 | ⟨h1, h1'⟩ <;> rcases hjk with h2 | ⟨h2, h2'⟩
  · exact Or.inl (h1.trans h2)
  · exact Or.inl (h2 ▸ h1)
  · exact Or.inl (h1 ▸ h2)
  · exact Or.inr ⟨h1.trans h2, h1'.trans h2'⟩

/-- `argsort` equals the sort by the lexicographic (score, index) key:
the stability statement. -/
theorem argsort_eq_lex {α : Type} [LinearOrder α] [Inhabited α]
    (scores : List α) :
    argsort scores
      = List.insertionSort (rankLex scores) (List.range scores.length) := by
  refine insertionSort_congr _ _ _ ?_
  refine (List.pairwise_lt_range scores.length).imp ?_
  intro i j hij
  unfold rankLE rankLex
  constructor
  · intro h
    rcases lt_or_eq_of_le h with h' | h'
    · exact Or.inl h'
    · exact Or.inr ⟨h', Nat.le_of_lt hij⟩
  · rintro (h | ⟨h, _⟩)
    · exact le_of_lt h
    · exact le_of_eq h

theorem argsort_sorted_lex {α : Type} [LinearOrder α] [Inhabited α]
    (scores : List α) : (argsort scores).Pairwise (rankLex scores) := by
  rw [argsort_eq_lex]
  haveI : IsTotal Nat (rankLex scores) := ⟨rankLex_total scores⟩
  haveI : IsTrans Nat (rankLex scores) := ⟨rankLex_trans scores⟩
  exact List.sorted_insertionSort (rankLex scores) (List.range scores.length)

theorem argsort_nodup {α : Type} [LinearOrder α] [Inhabited α]
    (scores : List α) : (argsort scores).Nodup :=
  ((List.perm_insertionSort (rankLE scores)
      (List.range scores.length)).symm.nodup (List.nodup_range _))

end topk

namespace bm25

/-- Lines 186–193 of `bm25_retrieval.py`:
`top_indices = np.argsort(scores)[-top_k:][::-1]`. -/
def top_indices {α : Type} [LinearOrder α] [Inhabited α] (scores : List α)
    (top_k : Nat) : List Nat :=
  (topk.lastSlice (topk.argsort scores) top_k).reverse

/-- Lines 193–197 of `bm25_retrieval.py`: gather the selected chunks and
join them with a blank line.  The BM25 scoring itself is the external
`rank_bm25` library call, so the score array is an input here. -/
def retrieve_relevant_chunks {α : Type} [LinearOrder α] [Inhabited α]
    (scores : List α) (chunks : List (List Char)) (top_k : Nat) : List Char :=
  List.intercalate "\n\n".toList
    ((top_indices scores top_k).map (fun i => chunks.getD i []))

end bm25

namespace pinecone

/-- Lines 196–200 of `pinecone_embeddings.py`: the identical
`np.argsort(similarities)[-top_k:][::-1]` selection on the cosine
similarity array (the similarity computation itself is numpy/Pinecone). -/
def top_indices {α : Type} [LinearOrder α] [Inhabited α]
    (similarities : List α) (top_k : Nat) : List Nat :=
  (topk.lastSlice (topk.argsort similarities) top_k).reverse

/-- The chunk gathering and blank-line join of `find_relevant_chunks`
(`pinecone_embeddings.py` lines 199–203). -/
def find_relevant_chunks {α : Type} [LinearOrder α] [Inhabited α]
    (similarities : List α) (chunks : List (List Char)) (top_k : Nat) :
    List Char :=
  List.intercalate "\n\n".toList
    ((top_indices similarities top_k).map (fun i => chunks.getD i []))

end pinecone

theorem top_indices_pairwise {α : Type} [LinearOrder α] [Inhabited α]
    (scores : List α) (top_k : Nat) :
    (bm25.top_indices scores top_k).Pairwise (fun i j =>
      scores.getD j default < scores.getD i default
      ∨ (scores.getD i default = scores.getD j default ∧ j < i)) := by
  have hslice : (topk.lastSlice (topk.argsort scores) top_k).Sublist
      (topk.argsort scores) := by
    unfold topk.lastSlice
    split
    · exact List.Sublist.refl _
    · exact List.drop_sublist _ _
  have hp : (topk.lastSlice (topk.argsort scores) top_k).Pairwise
      (fun i j => topk.rankLex scores i j ∧ i ≠ j) :=
    List.Pairwise.sublist hslice ((topk.argsort_sorted_lex scores).and
      (topk.argsort_nodup scores))
  unfold bm25.top_indices
  rw [List.pairwise_reverse]
  refine hp.imp ?_
  rintro i j ⟨hlex, hne⟩
  rcases hlex with h | ⟨heq, hle⟩
  · exact Or.inl h
  · exact Or.inr ⟨heq.symm, lt_of_le_of_ne hle hne⟩

/-- C2 (amended): under the stable model of `np.argsort`, both modules'
top-k selections list the chosen chunk indices in descending-score order,
but chunks with equal scores are ranked with the *larger* original index
first (the ascending stable sort is reversed by `[::-1]`), and the selected
chunk texts are concatenated in that order separated by a blank line.  The
claim's ascending tie order is refuted by the counterexample. -/
theorem claim_C2 {α : Type} [LinearOrder α] [Inhabited α] (scores : List α)
    (chunks : List (List Char)) (top_k : Nat) :
    ((bm25.top_indices scores top_k).Pairwise (fun i j =>
        scores.getD j default < scores.getD i default
        ∨ (scores.getD i default = scores.getD j default ∧ j < i))
      ∧ bm25.retrieve_relevant_chunks scores chunks top_k
          = List.intercalate "\n\n".toList
              ((bm25.top_indices scores top_k).map (fun i => chunks.getD i [])))
    ∧ ((pinecone.top_indices scores top_k).Pairwise (fun i j =>
        scores.getD j default < scores.getD i default
        ∨ (scores.getD i default = scores.getD j default ∧ j < i))
      ∧ pinecone.find_relevant_chunks scores chunks top_k
          = List.intercalate "\n\n".toList
              ((pinecone.top_indices scores top_k).map (fun i => chunks.getD i []))) :=
  ⟨⟨top_indices_pairwise scores top_k, rfl⟩,
   ⟨top_indices_pairwise scores top_k, rfl⟩⟩

/-- C2 counterexample: two chunks with equal scores.  The stable ascending
argsort gives `[0, 1]`; the `[-top_k:][::-1]` slice reverses it to `[1, 0]`,
so the chunk with the *larger* original index is ranked first and the texts
are joined as "b\n\na" — the claimed ascending tie-break would give
`[0, 1]` and "a\n\nb". -/
theorem claim_C2_cex :
    bm25.top_indices [(1 : Int), 1] 2 = [1, 0]
    ∧ ¬ ((bm25.top_indices [(1 : Int), 1] 2).Pairwise (fun i j =>
          ([(1 : Int), 1]).getD j default < ([(1 : Int), 1]).getD i default
          ∨ (([(1 : Int), 1]).getD i default = ([(1 : Int), 1]).getD j default
              ∧ i < j)))
    ∧ bm25.retrieve_relevant_chunks [(1 : Int), 1] ["a".toList, "b".toList] 2
        = "b\n\na".toList := by
  refine ⟨by decide, ?_, by decide⟩
  intro hp
  have : bm25.top_indices [(1 : Int), 1] 2 = [1, 0] := by decide
  rw [this] at hp
  rcases List.pairwise_cons.mp hp with ⟨h1, _⟩
  rcases h1 0 (by simp) with h | ⟨_, h⟩
  · exact absurd h (by decide)
  · exact absurd h (by decide)

namespace hybrid

/-- Oracle for the external calls of `retrieve_with_fallback`
(`hybrid_retrieval.py` lines 52–130): the BM25 retriever
(`retrieve_relevant_chunks_with_transcript`), the embedding cache warm-up
(`get_or_compute_embeddings`, value unused) and the embedding retriever
(`find_relevant_chunks`).  `Except.error` is a raised Python exception,
caught by the source's broad `try/except`; `Option` is the callee's
`Optional[str]` result. -/
structure FallbackEnv where
  bm25Result : Except String (Option (List Char))
  embedsResult : Except String Unit
  vecResult : Except String (Option (List Char))

/-- The final fallback of `retrieve_with_fallback` (line 130):
`transcript[:12000] if len(transcript) > 12000 else transcript`. -/
def truncation (transcript : List Char) : List Char :=
  if transcript.length > 12000 then transcript.take 12000 else transcript

/-- The "Step 2" block of `retrieve_with_fallback` (lines 104–130): fall
back to embeddings, quality-check the context, and finally return the
truncated transcript.  An `Optional[str]` is truthy in Python only when it
is a non-empty string. -/
def fallbackStep2 (env : FallbackEnv) (transcript : List Char) :
    Option (List Char) :=
  match env.embedsResult with
  | .error _ => some (truncation transcript)
  | .ok _ =>
    match env.vecResult with
    | .error _ => some (truncation transcript)
    | .ok none => some (truncation transcript)
    | .ok (some c) =>
      if c.isEmpty then some (truncation transcript)
      else if is_empty_or_not_discussed c then some (truncation transcript)
      else some c

/-- `retrieve_with_fallback` (`hybrid_retrieval.py` lines 52–130): try
BM25 and quality-check its context; on failure or rejection run the
embeddings fallback block. -/
def retrieve_with_fallback (env : FallbackEnv) (transcript : List Char) :
    Option (List Char) :=
  match env.bm25Result with
  | .error _ => fallbackStep2 env transcript
  | .ok none => fallbackStep2 env transcript
  | .ok (some c) =>
    if c.isEmpty then fallbackStep2 env transcript
    else if is_empty_or_not_discussed c then fallbackStep2 env transcript
    else some c

/-- The BM25 context when it is truthy and passes the quality check. -/
def lexAccepted (env : FallbackEnv) : Option (List Char) :=
  match env.bm25Result with
  | .ok (some c) =>
    if c.isEmpty then none
    else if is_empty_or_not_discussed c then none
    else some c
  | _ => none

/-- The embeddings context when that path ran without an exception, was
truthy, and passed the quality check. -/
def vecAccepted (env : FallbackEnv) : Option (List Char) :=
  match env.embedsResult, env.vecResult with
  | .ok _, .ok (some c) =>
    if c.isEmpty then none
    else if is_empty_or_not_discussed c then none
    else some c
  | _, _ => none

theorem truncation_eq (transcript : List Char) :
    truncation transcript = transcript.take 12000 := by
  unfold truncation
  split
  · rfl
  · next h => exact (List.take_of_length_le (by omega)).symm

theorem fallbackStep2_characterization (env : FallbackEnv)
    (transcript : List Char) :
    fallbackStep2 env transcript
      = match vecAccepted env with
        | some c => some c
        | none => some (truncation transcript) := by
  obtain ⟨b, em, v⟩ := env
  unfold fallbackStep2 vecAccepted
  dsimp only
  rcases em with e | u
  · rfl
  · rcases v with e | ov
    · rfl
    · rcases ov with _ | c
      · rfl
      · by_cases hc : c.isEmpty
        · simp [hc]
        · by_cases hq : is_empty_or_not_discussed c
          · simp [hc, hq]
          · simp [hc, hq]

theorem retrieve_with_fallback_characterization (env : FallbackEnv)
    (transcript : List Char) :
    retrieve_with_fallback env transcript
      = match lexAccepted env with
        | some c => some c
        | none => fallbackStep2 env transcript := by
  obtain ⟨b, em, v⟩ := env
  unfold retrieve_with_fallback lexAccepted
  dsimp only
  rcases b with e | ob
  · rfl
  · rcases ob with _ | c
    · rfl
    · by_cases hc : c.isEmpty
      · simp [hc]
      · by_cases hq : is_empty_or_not_discussed c
        · simp [hc, hq]
        · simp [hc, hq]

end hybrid

/-- C9: `retrieve_with_fallback` never returns the failure signal: whatever
the BM25 and embeddings oracles do, the result is `some`; and whenever
neither path produced accepted context, the result is the first 12000
characters of the transcript (the whole transcript when it is shorter). -/
theorem claim_C9 (env : hybrid.FallbackEnv) (transcript : List Char) :
    hybrid.retrieve_with_fallback env transcript ≠ none
    ∧ (hybrid.lexAccepted env = none → hybrid.vecAccepted env = none →
        hybrid.retrieve_with_fallback env transcript
          = some (transcript.take 12000)) := by
  constructor
  · rw [hybrid.retrieve_with_fallback_characterization]
    rcases hl : hybrid.lexAccepted env with _ | c
    · rw [hybrid.fallbackStep2_characterization]
      rcases hv : hybrid.vecAccepted env with _ | c
      · simp
      · simp
    · simp
  · intro hlex hvec
    rw [hybrid.retrieve_with_fallback_characterization, hlex,
      hybrid.fallbackStep2_characterization, hvec]
    rw [hybrid.truncation_eq]

/-- Witness for C9: BM25 returns no context and the embeddings call raises;
the result is the (short) transcript itself. -/
theorem claim_C9_witness :
    hybrid.lexAccepted ⟨Except.ok none, Except.error "down", Except.ok none⟩ = none
    ∧ hybrid.retrieve_with_fallback
        ⟨Except.ok none, Except.error "down", Except.ok none⟩ "hello".toList
      = some ("hello".toList.take 12000) :=
  ⟨rfl, (claim_C9 ⟨Except.ok none, Except.error "down", Except.ok none⟩
      "hello".toList).2 rfl rfl⟩

namespace hybrid

/-- Observable calls of one `retrieve_with_fallback_and_response` run:
the BM25 retrieval, the generation on the BM25 context, the embedding
cache/computation, the vector retrieval, and the generation on the vector
context. -/
inductive Ev where
  | lexRetrieve
  | lexGen
  | vecEmbed
  | vecRetrieve
  | vecGen
deriving DecidableEq

/-- Oracle for the external calls of `retrieve_with_fallback_and_response`
(`hybrid_retrieval.py` lines 133–230).  `gen` is
`gemini_client.generate_content` on the prompt built from a given context;
`Except.error` is a raised exception, caught by the source's `try/except`
blocks. -/
structure RespEnv where
  bm25Result : Except String (Option (List Char))
  gen : List Char → Except String (Option (List Char))
  embedsResult : Except String Unit
  vecResult : Except String (Option (List Char))

/-- The embeddings fallback block of `retrieve_with_fallback_and_response`
(lines 201–227), with its event trace: warm the embedding cache, retrieve
by vector similarity, generate; the generated text is returned whenever it
is truthy — even when the quality classifier flags it (lines 217–222) —
and otherwise the block falls through to `return None`. -/
def vecPhase (env : RespEnv) : Option (List Char) × List Ev :=
  match env.embedsResult with
  | .error _ => (none, [.vecEmbed])
  | .ok _ =>
    match env.vecResult with
    | .error _ => (none, [.vecEmbed, .vecRetrieve])
    | .ok none => (none, [.vecEmbed, .vecRetrieve])
    | .ok (some c) =>
      if c.isEmpty then (none, [.vecEmbed, .vecRetrieve])
      else
        match env.gen c with
        | .error _ => (none, [.vecEmbed, .vecRetrieve, .vecGen])
        | .ok none => (none, [.vecEmbed, .vecRetrieve, .vecGen])
        | .ok (some r) =>
          if r.isEmpty then (none, [.vecEmbed, .vecRetrieve, .vecGen])
          else (some r, [.vecEmbed, .vecRetrieve, .vecGen])

/-- `retrieve_with_fallback_and_response` (`hybrid_retrieval.py` lines
133–230), with its event trace: BM25 retrieval, generation on the BM25
context, quality check; on failure or rejection, the embeddings block;
`None` when that also fails. -/
def retrieve_with_fallback_and_response (env : RespEnv) :
    Option (List Char) × List Ev :=
  match env.bm25Result with
  | .error _ => ((vecPhase env).1, .lexRetrieve :: (vecPhase env).2)
  | .ok none => ((vecPhase env).1, .lexRetrieve :: (vecPhase env).2)
  | .ok (some c) =>
    if c.isEmpty then ((vecPhase env).1, .lexRetrieve :: (vecPhase env).2)
    else
      match env.gen c with
      | .error _ => ((vecPhase env).1, .lexRetrieve :: .lexGen :: (vecPhase env).2)
      | .ok none => ((vecPhase env).1, .lexRetrieve :: .lexGen :: (vecPhase env).2)
      | .ok (some r) =>
        if !r.isEmpty && !is_empty_or_not_discussed r then
          (some r, [.lexRetrieve, .lexGen])
        else ((vecPhase env).1, .lexRetrieve :: .lexGen :: (vecPhase env).2)

/-- The lexical answer of a run: the truthy text generated on the truthy
BM25 context, whether or not the classifier accepted it. -/
def lexAnswer (env : RespEnv) : Option (List Char) :=
  match env.bm25Result with
  | .ok (some c) =>
    if c.isEmpty then none
    else
      match env.gen c with
      | .ok (some r) => if r.isEmpty then none else some r
      | _ => none
  | _ => none

/-- The lexical answer when the quality classifier accepted it. -/
def lexOutcome (env : RespEnv) : Option (List Char) :=
  match lexAnswer env with
  | some r => if is_empty_or_not_discussed r then none else some r
  | none => none

theorem vecPhase_trace (env : RespEnv) :
    (vecPhase env).2 = [.vecEmbed]
    ∨ (vecPhase env).2 = [.vecEmbed, .vecRetrieve]
    ∨ (vecPhase env).2 = [.vecEmbed, .vecRetrieve, .vecGen] := by
  obtain ⟨b, g, em, v⟩ := env
  unfold vecPhase
  dsimp only
  rcases em with e | u
  · exact Or.inl rfl
  · rcases v with e | ov
    · exact Or.inr (Or.inl rfl)
    · rcases ov with _ | c
      · exact Or.inr (Or.inl rfl)
      · by_cases hc : c.isEmpty
        · simp [hc]
        · simp only [hc, if_false]
          rcases hg : g c with e | or
          · exact Or.inr (Or.inr rfl)
          · rcases or with _ | r
            · exact Or.inr (Or.inr rfl)
            · by_cases hr : r.isEmpty <;> simp [hr]

theorem response_characterization (env : RespEnv) :
    (∃ r, lexOutcome env = some r
      ∧ retrieve_with_fallback_and_response env = (some r, [.lexRetrieve, .lexGen]))
    ∨ (lexOutcome env = none
      ∧ (retrieve_with_fallback_and_response env).1 = (vecPhase env).1
      ∧ ((retrieve_with_fallback_and_response env).2
            = .lexRetrieve :: (vecPhase env).2
          ∨ (retrieve_with_fallback_and_response env).2
            = .lexRetrieve :: .lexGen :: (vecPhase env).2)) := by
  obtain ⟨b, g, em, v⟩ := env
  unfold retrieve_with_fallback_and_response lexOutcome lexAnswer
  dsimp only
  rcases b with e | ob
  · exact Or.inr ⟨rfl, rfl, Or.inl rfl⟩
  · rcases ob with _ | c
    · exact Or.inr ⟨rfl, rfl, Or.inl rfl⟩
    · by_cases hc : c.isEmpty
      · refine Or.inr ⟨?_, ?_, Or.inl ?_⟩ <;> simp [hc]
      · simp only [hc, if_false]
        rcases hg : g c with e | or
        · exact Or.inr ⟨rfl, rfl, Or.inr rfl⟩
        · rcases or with _ | r
          · exact Or.inr ⟨rfl, rfl, Or.inr rfl⟩
          · by_cases hr : r.isEmpty
            · refine Or.inr ⟨?_, ?_, Or.inr ?_⟩ <;> simp [hr]
            · by_cases hq : is_empty_or_not_discussed r
              · refine Or.inr ⟨?_, ?_, Or.inr ?_⟩ <;> simp [hr, hq]
              · refine Or.inl ⟨r, ?_, ?_⟩ <;> simp [hr, hq]

/-- Concrete run for C1: BM25 retrieves context, generation produces the
answer "no." which the classifier rejects (too short), and the vector
retrieval then raises. -/
def c1Env : RespEnv :=
  ⟨Except.ok (some "context about pricing".toList),
   fun _ => Except.ok (some "no.".toList),
   Except.ok (),
   Except.error "embedding provider down"⟩

end hybrid

/-- C1 counterexample: BM25 retrieves context, generation returns "no."
(rejected by the classifier as too short), the vector retrieval then
raises — and the function returns the failure signal `none`, not the
original lexical answer "no." that the claim requires. -/
theorem claim_C1_cex :
    hybrid.lexAnswer hybrid.c1Env = some "no.".toList
    ∧ hybrid.is_empty_or_not_discussed "no.".toList = true
    ∧ hybrid.c1Env.vecResult = Except.error "embedding provider down"
    ∧ (hybrid.retrieve_with_fallback_and_response hybrid.c1Env).1 = none
    ∧ (hybrid.retrieve_with_fallback_and_response hybrid.c1Env).1
        ≠ some "no.".toList :=
  ⟨by decide, by decide, rfl, by decide, by decide⟩

/-- C1 (amended): in every run where the lexical path produced no accepted
answer (none at all, or one rejected by the quality classifier) and the
vector fallback yields no answer (the embedding call or vector retrieval
raised or returned no context, or its generation produced no truthy text),
`retrieve_with_fallback_and_response` returns the failure signal `none` —
the previously rejected lexical answer is never returned, whether or not
one existed. -/
theorem claim_C1 (env : hybrid.RespEnv)
    (h1 : hybrid.lexOutcome env = none)
    (h2 : (hybrid.vecPhase env).1 = none) :
    (hybrid.retrieve_with_fallback_and_response env).1 = none := by
  rcases hybrid.response_characterization env with ⟨r, hr, _⟩ | ⟨_, hres, _⟩
  · rw [hr] at h1
    exact absurd h1 (by simp)
  · rw [hres, h2]

/-- Witness for C1 (amended) at the concrete run of the counterexample:
rejected lexical answer, vector retrieval raises, result is `none`. -/
theorem claim_C1_witness :
    hybrid.lexOutcome hybrid.c1Env = none
    ∧ (hybrid.vecPhase hybrid.c1Env).1 = none
    ∧ (hybrid.retrieve_with_fallback_and_response hybrid.c1Env).1 = none :=
  ⟨by decide, rfl, claim_C1 hybrid.c1Env (by decide) rfl⟩

/-- C3: in every run the vector-path calls (embedding computation, vector
retrieval, vector-side generation) each occur at most once; the first call
of the run is always the lexical retrieval; when the lexical answer is
accepted the run performs zero vector-path calls and returns that answer;
and any vector-path call implies the lexical path had been attempted
without an accepted answer (rejected by the classifier or unavailable). -/
theorem claim_C3 (env : hybrid.RespEnv) :
    ((hybrid.retrieve_with_fallback_and_response env).2.count .vecEmbed ≤ 1
      ∧ (hybrid.retrieve_with_fallback_and_response env).2.count .vecRetrieve ≤ 1
      ∧ (hybrid.retrieve_with_fallback_and_response env).2.count .vecGen ≤ 1)
    ∧ (hybrid.retrieve_with_fallback_and_response env).2.head?
        = some .lexRetrieve
    ∧ (∀ r, hybrid.lexOutcome env = some r →
        (hybrid.retrieve_with_fallback_and_response env).1 = some r
        ∧ hybrid.Ev.vecEmbed ∉ (hybrid.retrieve_with_fallback_and_response env).2
        ∧ hybrid.Ev.vecRetrieve ∉ (hybrid.retrieve_with_fallback_and_response env).2
        ∧ hybrid.Ev.vecGen ∉ (hybrid.retrieve_with_fallback_and_response env).2)
    ∧ (hybrid.Ev.vecEmbed ∈ (hybrid.retrieve_with_fallback_and_response env).2 →
        hybrid.lexOutcome env = none) := by
  rcases hybrid.response_characterization env with ⟨r, hr, hf⟩ | ⟨hnone, _, htr⟩
  · rw [hf]
    dsimp only
    refine ⟨by decide, rfl, ?_, ?_⟩
    · intro r' hr'
      rw [hr] at hr'
      cases hr'
      exact ⟨rfl, by decide, by decide, by decide⟩
    · intro hmem
      exact absurd hmem (by decide)
  · have hvp := hybrid.vecPhase_trace env
    rcases htr with htr | htr <;> rw [htr] <;>
      rcases hvp with hvp | hvp | hvp <;> rw [hvp] <;>
      exact ⟨by decide, rfl,
        fun r' hr' => absurd (hnone ▸ hr') (by simp),
        fun _ => hnone⟩

/-- Witness for C3 at a concrete run whose lexical answer is accepted: a
long generated answer passes the classifier and no vector call occurs. -/
theorem claim_C3_witness :
    hybrid.Ev.vecEmbed ∉ (hybrid.retrieve_with_fallback_and_response
        ⟨Except.ok (some "context".toList),
         fun _ => Except.ok (some ("The speaker explains the launch process "
            ++ "in detail across three sections.").toList),
         Except.ok (),
         Except.ok none⟩).2 :=
  ((claim_C3 ⟨Except.ok (some "context".toList),
      fun _ => Except.ok (some ("The speaker explains the launch process "
        ++ "in detail across three sections.").toList),
      Except.ok (),
      Except.ok none⟩).2.2.1
    (("The speaker explains the launch process "
      ++ "in detail across three sections.").toList) (by decide)).2.1

namespace cache

/-- Look up a key in the `SimpleCache` table (`self._cache`), an
association of keys to `(value, expiry)` pairs. -/
def lookup {α : Type} : List (String × α × Nat) → String → Option (α × Nat)
  | [], _ => none
  | e :: t, key => if e.1 == key then some e.2 else lookup t key

/-- Python `del self._cache[key]` / absence of a key: drop every entry for
`key` (the table keeps one entry per key, as a `dict` does). -/
def eraseKey {α : Type} : List (String × α × Nat) → String →
    List (String × α × Nat)
  | [], _ => []
  | e :: t, key => if e.1 == key then eraseKey t key else e :: eraseKey t key

/-- `SimpleCache.get` (`cache.py` lines 31–41): `now` is `datetime.now()`
at call time.  Returns the hit (if any, and only while `now < expiry`)
together with the table afterwards — an expired entry is deleted by the
call itself. -/
def SimpleCache.get {α : Type} (table : List (String × α × Nat))
    (key : String) (now : Nat) : Option α × List (String × α × Nat) :=
  match lookup table key with
  | none => (none, table)
  | some (value, expiry) =>
    if now < expiry then (some value, table) else (none, eraseKey table key)

/-- `SimpleCache.set` (`cache.py` lines 43–47): store
`(value, now + ttl_seconds)` under `key`, replacing any previous entry. -/
def SimpleCache.set {α : Type} (table : List (String × α × Nat))
    (key : String) (value : α) (ttl_seconds now : Nat) :
    List (String × α × Nat) :=
  (key, value, now + ttl_seconds) :: eraseKey table key

theorem lookup_set {α : Type} (table : List (String × α × Nat))
    (key : String) (value : α) (ttl_seconds now : Nat) :
    lookup (SimpleCache.set table key value ttl_seconds now) key
      = some (value, now + ttl_seconds) := by
  unfold SimpleCache.set
  rw [lookup, if_pos (by simp)]

theorem lookup_eraseKey {α : Type} (table : List (String × α × Nat))
    (key : String) : lookup (eraseKey table key) key = none := by
  induction table with
  | nil => rfl
  | cons e t ih =>
    rw [eraseKey]
    by_cases he : e.1 == key
    · rw [if_pos he]
      exact ih
    · rw [if_neg he, lookup, if_neg he]
      exact ih

end cache

/-- C7: for the in-process cache, `set` followed by `get` before the TTL
has elapsed returns the stored value; and `get` never returns an expired
entry — at or past its expiry the entry reads as absent and the `get`
call itself removes it from the table. -/
theorem claim_C7 {α : Type} (table : List (String × α × Nat)) (key : String)
    (value : α) (ttl_seconds now now' : Nat) (v : α) (expiry : Nat) :
    (now' < now + ttl_seconds →
      (cache.SimpleCache.get
          (cache.SimpleCache.set table key value ttl_seconds now) key now').1
        = some value)
    ∧ (cache.lookup table key = some (v, expiry) → expiry ≤ now →
        (cache.SimpleCache.get table key now).1 = none
        ∧ cache.lookup (cache.SimpleCache.get table key now).2 key = none) := by
  constructor
  · intro hfresh
    unfold cache.SimpleCache.get
    rw [cache.lookup_set]
    dsimp only
    rw [if_pos hfresh]
  · intro hfound hexp
    unfold cache.SimpleCache.get
    rw [hfound]
    dsimp only
    rw [if_neg (by omega)]
    exact ⟨rfl, cache.lookup_eraseKey table key⟩

/-- Witness for C7: a round-trip hit on a fresh entry, and an expired
entry read at a later time, which reports absent and is deleted. -/
theorem claim_C7_witness :
    (cache.SimpleCache.get
        (cache.SimpleCache.set ([] : List (String × Nat × Nat)) "k" 7 60 0)
        "k" 59).1 = some 7
    ∧ ((cache.SimpleCache.get [("k", (7 : Nat), 5)] "k" 9).1 = none
        ∧ cache.lookup (cache.SimpleCache.get [("k", (7 : Nat), 5)] "k" 9).2 "k"
            = none) :=
  ⟨(claim_C7 [] "k" 7 60 0 59 7 5).1 (by norm_num),
   (claim_C7 [("k", (7 : Nat), 5)] "k" 7 60 9 0 7 5).2 (by decide) (by norm_num)⟩

namespace cache

/-- Behaviour of the Redis connection and the JSON codec during one
`RedisCache` call; `Except.error` is a raised Python exception. -/
structure RedisEnv (α : Type) where
  getRaw : Except String (Option String)
  setRaw : String → Except String Unit
  delRaw : Except String Unit
  dumps : α → Except String String
  loads : String → Except String α

/-- The body of `RedisCache.get` (`cache.py` lines 96–101) before its
`except` clause: fetch the raw value, then `json.loads` it. -/
def RedisCache.getBody {α : Type} (env : RedisEnv α) :
    Except String (Option α) := do
  let value ← env.getRaw
  match value with
  | none => pure none
  | some s => do
    let v ← env.loads s
    pure (some v)

/-- `RedisCache.get` (`cache.py` lines 94–104): the result type
`Except String (Option α)` mirrors a Python call that either returns or
raises; the source catches every exception and returns `None`. -/
def RedisCache.get {α : Type} (env : RedisEnv α) : Except String (Option α) :=
  match RedisCache.getBody env with
  | .ok v => .ok v
  | .error _ => .ok none

/-- The body of `RedisCache.set` (`cache.py` lines 108–111) before its
`except` clause: `json.dumps` the value, then `setex` it. -/
def RedisCache.setBody {α : Type} (env : RedisEnv α) (value : α) :
    Except String Unit := do
  let serialized ← env.dumps value
  env.setRaw serialized

/-- `RedisCache.set` (`cache.py` lines 106–113): every exception is caught
and the method returns normally. -/
def RedisCache.set {α : Type} (env : RedisEnv α) (value : α) :
    Except String Unit :=
  match RedisCache.setBody env value with
  | .ok _ => .ok ()
  | .error _ => .ok ()

/-- `RedisCache.delete` (`cache.py` lines 115–120): every exception is
caught and the method returns normally. -/
def RedisCache.delete {α : Type} (env : RedisEnv α) : Except String Unit :=
  match env.delRaw with
  | .ok _ => .ok ()
  | .error _ => .ok ()

end cache

/-- C8: no Redis backend exception escapes the `RedisCache` methods: the
three methods always return (`Except.ok`), a failing `get` (backend error
or undecodable JSON) reads as a cache miss (`none`), and a failing `set`
or `delete` returns normally. -/
theorem claim_C8 {α : Type} (env : cache.RedisEnv α) (value : α) (e : String) :
    (∃ r, cache.RedisCache.get env = Except.ok r)
    ∧ (cache.RedisCache.set env value = Except.ok ())
    ∧ (cache.RedisCache.delete env = Except.ok ())
    ∧ (cache.RedisCache.getBody env = Except.error e →
        cache.RedisCache.get env = Except.ok none)
    ∧ (cache.RedisCache.setBody env value = Except.error e →
        cache.RedisCache.set env value = Except.ok ())
    ∧ (env.delRaw = Except.error e →
        cache.RedisCache.delete env = Except.ok ()) := by
  refine ⟨?_, ?_, ?_, ?_, ?_, ?_⟩
  · unfold cache.RedisCache.get
    rcases cache.RedisCache.getBody env with e' | v
    · exact ⟨none, rfl⟩
    · exact ⟨v, rfl⟩
  · unfold cache.RedisCache.set
    rcases cache.RedisCache.setBody env value with e' | u
    · rfl
    · rfl
  · unfold cache.RedisCache.delete
    rcases env.delRaw with e' | u
    · rfl
    · rfl
  · intro hb
    unfold cache.RedisCache.get
    rw [hb]
  · intro hb
    unfold cache.RedisCache.set
    rw [hb]
  · intro hb
    unfold cache.RedisCache.delete
    rw [hb]

/-- Witness for C8 at a backend whose every operation raises. -/
theorem claim_C8_witness :
    cache.RedisCache.get
      (⟨Except.error "boom", fun _ => Except.error "boom",
        Except.error "boom", fun n => Except.ok (toString n),
        fun _ => Except.error "bad json"⟩ : cache.RedisEnv Nat)
      = Except.ok none
    ∧ cache.RedisCache.set
        (⟨Except.error "boom", fun _ => Except.error "boom",
          Except.error "boom", fun n => Except.ok (toString n),
          fun _ => Except.error "bad json"⟩ : cache.RedisEnv Nat) 3
      = Except.ok ()
    ∧ cache.RedisCache.delete
        (⟨Except.error "boom", fun _ => Except.error "boom",
          Except.error "boom", fun n => Except.ok (toString n),
          fun _ => Except.error "bad json"⟩ : cache.RedisEnv Nat)
      = Except.ok () :=
  ⟨(claim_C8 (⟨Except.error "boom", fun _ => Except.error "boom",
        Except.error "boom", fun n => Except.ok (toString n),
        fun _ => Except.error "bad json"⟩ : cache.RedisEnv Nat) 3 "boom").2.2.2.1 rfl,
   (claim_C8 (⟨Except.error "boom", fun _ => Except.error "boom",
        Except.error "boom", fun n => Except.ok (toString n),
        fun _ => Except.error "bad json"⟩ : cache.RedisEnv Nat) 3 "boom").2.2.2.2.1 rfl,
   (claim_C8 (⟨Except.error "boom", fun _ => Except.error "boom",
        Except.error "boom", fun n => Except.ok (toString n),
        fun _ => Except.error "bad json"⟩ : cache.RedisEnv Nat) 3 "boom").2.2.2.2.2 rfl⟩
